import Mathlib

/-!
A verification development for the FPL (Fantasy Premier League) what-if /
auto-substitution engine of this repository.

The JavaScript sources embedded here:
* `simulateAutoSubs` (identical in `api/get-what-if.js` and
  `api/get-player-contributions.js`) — the Lineup Resolver;
* the bench-boost dispatch `effectivePicks` of `api/get-player-contributions.js`;
* the branch simulator of `api/get-what-if.js`: multiplier normalisation
  (`normalizedPicks`), freeze-point derivation (`transferGWs`, `freeHitGWs`,
  `allFreezeGWs`), base points, and the per-gameweek replay loop.

JS objects holding per-player stats are modelled as `Nat → Option PlayerStat`
(a missing key is `none`); JS `x ? x.f : 0` lookups become `Option.elim`.
All functions are total: absent data never raises an error, matching the code.
-/

namespace FplSim

/-- Per-player, per-gameweek stat record, as built from the live endpoint:
`{ points: el.stats.total_points, minutes: el.stats.minutes }`. -/
structure PlayerStat where
  points : Int
  minutes : Nat
deriving DecidableEq

/-- The per-gameweek player table `playerDataForGW`: a JS object keyed by
player id; a missing key is `none`. -/
abbrev StatsMap := Nat → Option PlayerStat

/-- One squad pick: `{ element, position, multiplier }` (the fields the code
reads). Positions 1..11 are starters, 12..15 the bench. -/
structure Pick where
  element : Nat
  position : Nat
  multiplier : Nat
deriving DecidableEq

/-- One entry of an effective lineup: `{ element, multiplier }`. -/
structure LineupEntry where
  element : Nat
  multiplier : Nat
deriving DecidableEq

/-- `starterData ? starterData.minutes : 0`. -/
def minutesOf (stats : StatsMap) (e : Nat) : Nat :=
  (stats e).elim 0 PlayerStat.minutes

/-- `pData ? pData.points : 0`. -/
def pointsOf (stats : StatsMap) (e : Nat) : Int :=
  (stats e).elim 0 PlayerStat.points

/-- Ordering used by `.sort((a, b) => a.position - b.position)`. -/
def pickLE (a b : Pick) : Prop := a.position ≤ b.position

instance : DecidableRel pickLE := fun a b => Nat.decLe a.position b.position

/-- `picks.filter(p => p.position >= 1 && p.position <= 11).sort(...)`. -/
def startersOf (picks : List Pick) : List Pick :=
  List.insertionSort pickLE
    (picks.filter fun p => decide (1 ≤ p.position ∧ p.position ≤ 11))

/-- `picks.filter(p => p.position >= 12 && p.position <= 15).sort(...)`. -/
def benchOf (picks : List Pick) : List Pick :=
  List.insertionSort pickLE
    (picks.filter fun p => decide (12 ≤ p.position ∧ p.position ≤ 15))

/-- The inner bench scan of `simulateAutoSubs`: first bench player (in list
order) that is not in `usedBenchPlayers` and has `minutes > 0`. -/
def pickBench (bench : List Pick) (used : List Nat) (stats : StatsMap) : Option Pick :=
  match bench with
  | [] => none
  | b :: rest =>
    if b.element ∈ used then pickBench rest used stats
    else if 0 < minutesOf stats b.element then some b
    else pickBench rest used stats

/-- The starter loop of `simulateAutoSubs`: a playing starter keeps its
multiplier; a non-playing starter is replaced by the first eligible bench
player (which inherits the starter's multiplier and is marked used), or kept
when none is eligible. -/
def resolveLoop (bench : List Pick) (stats : StatsMap) :
    List Pick → List Nat → List LineupEntry
  | [], _ => []
  | s :: rest, used =>
    if 0 < minutesOf stats s.element then
      ⟨s.element, s.multiplier⟩ :: resolveLoop bench stats rest used
    else
      match pickBench bench used stats with
      | some bp => ⟨bp.element, s.multiplier⟩ :: resolveLoop bench stats rest (bp.element :: used)
      | none => ⟨s.element, s.multiplier⟩ :: resolveLoop bench stats rest used

/-- `simulateAutoSubs(picks, playerDataForGW)` from `api/get-what-if.js`
(line-for-line identical in `api/get-player-contributions.js`). -/
def simulateAutoSubs (picks : List Pick) (stats : StatsMap) : List LineupEntry :=
  resolveLoop (benchOf picks) stats (startersOf picks) []

/-- Chips carried by `active_chip` (a string or null upstream). -/
inductive Chip where
  | freehit
  | bboost
  | tripleCaptain
  | wildcard
deriving DecidableEq

/-- `entry_history` — the single field the simulator reads. -/
structure EntryHistory where
  totalPoints : Int
deriving DecidableEq

/-- One gameweek's picks payload: the fields of the upstream response the
code reads, each optional (the guards `!data.picks`, `?.entry_history`,
`?.active_chip` all tolerate absence). -/
structure PicksData where
  picks : Option (List Pick)
  entryHistory : Option EntryHistory
  activeChip : Option Chip
deriving DecidableEq

/-- The bench-boost dispatch of `api/get-player-contributions.js` (step 4):
`activeChip === 'bboost'` short-circuits the resolver. -/
def effectivePicks (picks : List Pick) (activeChip : Option Chip)
    (gwData : StatsMap) : List LineupEntry :=
  if activeChip = some Chip.bboost then
    picks.map fun p => ⟨p.element, p.multiplier⟩
  else
    simulateAutoSubs picks gwData

/-- One point of a branch time series: `{ gw, points }`. -/
structure GWPoint where
  gw : Nat
  points : Int
deriving DecidableEq

/-- One counterfactual branch: `{ freezeGW, label, data }`. -/
structure Branch where
  freezeGW : Nat
  label : String
  data : List GWPoint
deriving DecidableEq

/-- Gameweek scoring inside the branch loop:
`gwPoints += (pData ? pData.points : 0) * player.multiplier` over the
effective lineup. -/
def gwScore (lineup : List LineupEntry) (stats : StatsMap) : Int :=
  lineup.foldl (fun acc pl => acc + pointsOf stats pl.element * (pl.multiplier : Int)) 0

/-- Multiplier normalisation for post-freeze gameweeks (`api/get-what-if.js`):
`multiplier: p.position >= 12 ? 0 : (p.multiplier === 3 ? 2 : p.multiplier)`,
all other fields kept by the spread `...p`. -/
def normalizedPicks (picks : List Pick) : List Pick :=
  picks.map fun p =>
    { p with multiplier := if 12 ≤ p.position then 0 else if p.multiplier = 3 then 2 else p.multiplier }

/-- `[...new Set(transfersData.map(t => t.event))].sort((a, b) => a - b)`. -/
def mkTransferGWs (events : List Nat) : List Nat :=
  List.insertionSort (· ≤ ·) events.dedup

/-- The `freeHitGWs` set: gameweeks 1..currentGW whose picks payload carries
`active_chip === 'freehit'`. -/
def freeHitGWs (picksMap : Nat → Option PicksData) (currentGW : Nat) : List Nat :=
  (List.range' 1 currentGW).filter fun gw =>
    match picksMap gw with
    | some pd => decide (pd.activeChip = some Chip.freehit)
    | none => false

/-- `allFreezeGWs = [1, ...transferGWs.filter(gw => gw !== 1)]
.filter(gw => !freeHitGWs.has(gw)).sort((a, b) => a - b)`. -/
def mkAllFreezeGWs (transferGWs : List Nat) (picksMap : Nat → Option PicksData)
    (currentGW : Nat) : List Nat :=
  let fh := freeHitGWs picksMap currentGW
  List.insertionSort (· ≤ ·)
    ((1 :: transferGWs.filter fun gw => decide (gw ≠ 1)).filter fun gw => decide (gw ∉ fh))

/-- `let basePoints = 0; if (freezeGW > 1 && picksMap[freezeGW-1]?.entry_history)
basePoints = picksMap[freezeGW-1].entry_history.total_points;`. -/
def basePointsFor (picksMap : Nat → Option PicksData) (freezeGW : Nat) : Int :=
  if 1 < freezeGW then
    match picksMap (freezeGW - 1) with
    | some pd =>
      match pd.entryHistory with
      | some eh => eh.totalPoints
      | none => 0
    | none => 0
  else 0

/-- The score added at gameweek `gw` of the replay: 0 when no stat table
exists for `gw`, otherwise the gameweek score of the resolved lineup, with the
original frozen picks at the freeze gameweek and the normalised picks after it. -/
def deltaAt (frozen normalized : List Pick) (stats : Nat → Option StatsMap)
    (freezeGW gw : Nat) : Int :=
  match stats gw with
  | none => 0
  | some d => gwScore (simulateAutoSubs (if gw = freezeGW then frozen else normalized) d) d

/-- The replay loop `for (let gw = freezeGW; gw <= currentGW; gw++)`: pushes
`{ gw, points: runningTotal }` for each gameweek, carrying the total forward
unchanged when `gwPlayerData[gw]` is missing. -/
def branchLoop (frozen normalized : List Pick) (stats : Nat → Option StatsMap)
    (freezeGW : Nat) : List Nat → Int → List GWPoint
  | [], _ => []
  | gw :: rest, total =>
    match stats gw with
    | none => ⟨gw, total⟩ :: branchLoop frozen normalized stats freezeGW rest total
    | some d =>
      let lineup := simulateAutoSubs (if gw = freezeGW then frozen else normalized) d
      let pts := gwScore lineup d
      ⟨gw, total + pts⟩ :: branchLoop frozen normalized stats freezeGW rest (total + pts)

/-- `` `GW${freezeGW} freeze` ``. -/
def mkLabel (freezeGW : Nat) : String :=
  "GW" ++ toString freezeGW ++ " freeze"

/-- One iteration of the `for (const freezeGW of allFreezeGWs)` loop:
`continue` (i.e. `none`) when the frozen picks payload is missing or lacks a
picks list; otherwise the branch built from the replay loop. -/
def branchFor (picksMap : Nat → Option PicksData) (stats : Nat → Option StatsMap)
    (currentGW freezeGW : Nat) : Option Branch :=
  match picksMap freezeGW with
  | none => none
  | some pd =>
    match pd.picks with
    | none => none
    | some frozen =>
      some
        { freezeGW := freezeGW
          label := mkLabel freezeGW
          data :=
            branchLoop frozen (normalizedPicks frozen) stats freezeGW
              (List.range' freezeGW (currentGW + 1 - freezeGW))
              (basePointsFor picksMap freezeGW) }

/-- Step 7 of `api/get-what-if.js`: branches, in freeze-point order, skipping
unavailable freeze points. -/
def computeBranches (picksMap : Nat → Option PicksData) (stats : Nat → Option StatsMap)
    (currentGW : Nat) (freezeGWs : List Nat) : List Branch :=
  freezeGWs.filterMap (branchFor picksMap stats currentGW)

/-- Spec-side resolver step, written from the design document's words
(§4.1): a starter with `minutesPlayed > 0` is included at its original
multiplier; otherwise the bench is scanned in priority order for the first
player not yet used whose `minutesPlayed > 0`, which is included inheriting
the starter's multiplier and marked used; when none is found the original
starter is included anyway. Absent stat data is treated as zero minutes. -/
def resolveSpecStep (bench : List Pick) (stats : StatsMap)
    (st : List LineupEntry × Finset Nat) (s : Pick) : List LineupEntry × Finset Nat :=
  if 0 < minutesOf stats s.element then
    (st.1 ++ [⟨s.element, s.multiplier⟩], st.2)
  else
    match bench.find? (fun bp => decide (bp.element ∉ st.2 ∧ 0 < minutesOf stats bp.element)) with
    | some bp => (st.1 ++ [⟨bp.element, s.multiplier⟩], insert bp.element st.2)
    | none => (st.1 ++ [⟨s.element, s.multiplier⟩], st.2)

/-- Spec-side Lineup Resolver (§4.1 of the design document): starters in
ascending slot order are folded over a shared used-set starting empty. -/
def lineupResolverSpec (picks : List Pick) (stats : StatsMap) : List LineupEntry :=
  ((startersOf picks).foldl (resolveSpecStep (benchOf picks) stats) ([], ∅)).1

lemma pickBench_eq_find (stats : StatsMap) (usedF : Finset Nat) (usedL : List Nat)
    (hiff : ∀ e, e ∈ usedL ↔ e ∈ usedF) :
    ∀ bench : List Pick,
      pickBench bench usedL stats
        = bench.find? fun bp => decide (bp.element ∉ usedF ∧ 0 < minutesOf stats bp.element) := by
  intro bench
  induction bench with
  | nil => rfl
  | cons b rest ih =>
    by_cases hb : b.element ∈ usedL
    · have hpred : ¬(b.element ∉ usedF ∧ 0 < minutesOf stats b.element) := by
        simp [(hiff b.element).mp hb]
      rw [pickBench, if_pos hb, ih, List.find?_cons_of_neg]
      simpa using hpred
    · by_cases hm : 0 < minutesOf stats b.element
      · have hpred : b.element ∉ usedF ∧ 0 < minutesOf stats b.element :=
          ⟨fun h => hb ((hiff b.element).mpr h), hm⟩
        rw [pickBench, if_neg hb, if_pos hm, List.find?_cons_of_pos]
        simpa using hpred
      · have hpred : ¬(b.element ∉ usedF ∧ 0 < minutesOf stats b.element) := by
          intro h; exact hm h.2
        rw [pickBench, if_neg hb, if_neg hm, ih, List.find?_cons_of_neg]
        simpa using hpred

lemma foldl_resolveSpecStep (bench : List Pick) (stats : StatsMap) :
    ∀ (starters : List Pick) (acc : List LineupEntry) (usedF : Finset Nat) (usedL : List Nat),
      (∀ e, e ∈ usedL ↔ e ∈ usedF) →
      (starters.foldl (resolveSpecStep bench stats) (acc, usedF)).1
        = acc ++ resolveLoop bench stats starters usedL := by
  intro starters
  induction starters with
  | nil => intro acc usedF usedL _; simp [resolveLoop]
  | cons s rest ih =>
    intro acc usedF usedL hiff
    rw [List.foldl_cons]
    by_cases hm : 0 < minutesOf stats s.element
    · rw [resolveLoop, if_pos hm]
      show (rest.foldl (resolveSpecStep bench stats) (resolveSpecStep bench stats (acc, usedF) s)).1 = _
      rw [resolveSpecStep, if_pos hm, ih _ usedF usedL hiff, List.append_assoc,
        List.singleton_append]
    · rw [resolveLoop, if_neg hm]
      have hfind := (pickBench_eq_find stats usedF usedL hiff bench).symm
      show (rest.foldl (resolveSpecStep bench stats) (resolveSpecStep bench stats (acc, usedF) s)).1 = _
      rw [resolveSpecStep, if_neg hm]
      cases hpb : pickBench bench usedL stats with
      | none =>
        rw [hfind, hpb, ih _ usedF usedL hiff, List.append_assoc, List.singleton_append]
      | some bp =>
        rw [hfind, hpb]
        have hiff' : ∀ e, e ∈ bp.element :: usedL ↔ e ∈ insert bp.element usedF := by
          intro e
          simp [List.mem_cons, Finset.mem_insert, hiff e]
        rw [ih _ (insert bp.element usedF) (bp.element :: usedL) hiff',
          List.append_assoc, List.singleton_append]

/-- Concrete squad used to witness the used-set claim: two starters with no
minutes and a single bench player with minutes. -/
def usedSetPicks : List Pick := [⟨1, 1, 2⟩, ⟨2, 2, 1⟩, ⟨3, 12, 1⟩, ⟨4, 13, 1⟩]

/-- Stats for `usedSetPicks`: only player 3 (first bench slot) played. -/
def usedSetStats : StatsMap := fun e =>
  if e = 3 then some ⟨5, 90⟩ else if e ≤ 4 then some ⟨2, 0⟩ else none

/-- A full 15-pick squad (positions 1..15, distinct elements 101..115). -/
def fullSquadPicks : List Pick :=
  (List.range' 1 15).map fun i => ⟨100 + i, i, if i = 1 then 2 else 1⟩

/-- Stats for `fullSquadPicks`: everyone played and scored one point. -/
def fullSquadStats : StatsMap := fun e =>
  if 101 ≤ e ∧ e ≤ 115 then some ⟨1, 90⟩ else none

/-- A 15-pick squad under bench boost: captain at slot 1, all multipliers
stored as 1 elsewhere (bench multipliers are 1 under the chip). -/
def bbFrozen : List Pick :=
  (List.range' 1 15).map fun i => ⟨200 + i, i, if i = 1 then 2 else 1⟩

def bbPicksData : PicksData := ⟨some bbFrozen, none, some Chip.bboost⟩

def bbPicksMap : Nat → Option PicksData :=
  fun gw => if gw = 1 then some bbPicksData else none

/-- Every player of `bbFrozen` played and scored one point. -/
def bbStats : StatsMap := fun e => if 201 ≤ e ∧ e ≤ 215 then some ⟨1, 90⟩ else none

def bbStatsMap : Nat → Option StatsMap := fun gw => if gw = 1 then some bbStats else none

/-- Three picks (one triple captain, one mid squad, one bench) used to
witness the normalisation mapping. -/
def tcNormPicks : List Pick := [⟨7, 1, 3⟩, ⟨8, 5, 1⟩, ⟨9, 13, 1⟩]

/-- Frozen squad with a triple captain, for the freeze-vs-later witness. -/
def tcFrozen : List Pick := [⟨1, 1, 3⟩, ⟨2, 12, 1⟩]

def tcPicksData : PicksData := ⟨some tcFrozen, none, some Chip.tripleCaptain⟩

def tcPicksMap : Nat → Option PicksData :=
  fun gw => if gw = 1 then some tcPicksData else none

def tcStats : StatsMap :=
  fun e => if e = 1 then some ⟨4, 90⟩ else if e = 2 then some ⟨5, 90⟩ else none

def tcStatsMap : Nat → Option StatsMap := fun _gw => some tcStats

/-- The branch the simulator computes for `tcPicksMap` at freeze gameweek 1
over gameweeks 1..2: 3 x 4 points, then 2 x 4 points. -/
def tcBranch : Branch := ⟨1, mkLabel 1, [⟨1, 12⟩, ⟨2, 20⟩]⟩

/-- Gameweek-1 payload holding only the entry history (cumulative 30). -/
def basePd1 : PicksData := ⟨none, some ⟨30⟩, none⟩

def baseFrozen : List Pick := [⟨1, 1, 2⟩]

def basePd2 : PicksData := ⟨some baseFrozen, none, none⟩

def basePicksMap : Nat → Option PicksData :=
  fun gw => if gw = 1 then some basePd1 else if gw = 2 then some basePd2 else none

def baseStats : StatsMap := fun e => if e = 1 then some ⟨4, 90⟩ else none

def baseStatsMap : Nat → Option StatsMap := fun gw => if gw = 2 then some baseStats else none

/-- The branch computed for `basePicksMap` frozen at gameweek 2: 30 + 8. -/
def baseBranch : Branch := ⟨2, mkLabel 2, [⟨2, 38⟩]⟩

def cfFrozen : List Pick := [⟨1, 1, 2⟩]

def cfPicksMap : Nat → Option PicksData :=
  fun gw => if gw = 1 then some ⟨some cfFrozen, none, none⟩ else none

def cfStats1 : StatsMap := fun e => if e = 1 then some ⟨4, 90⟩ else none

/-- Stats exist for gameweek 1 only; gameweek 2 has no live data. -/
def cfStatsMap : Nat → Option StatsMap := fun gw => if gw = 1 then some cfStats1 else none

/-- The branch computed for `cfPicksMap` at freeze gameweek 1 over 1..2: the
gameweek-2 entry carries the 8 points forward. -/
def cfBranch : Branch := ⟨1, mkLabel 1, [⟨1, 8⟩, ⟨2, 8⟩]⟩

def skipFrozen : List Pick := [⟨1, 1, 2⟩]

/-- Gameweek 2's payload exists but lacks a picks list. -/
def skipPicksMap : Nat → Option PicksData :=
  fun gw =>
    if gw = 1 then some ⟨some skipFrozen, none, none⟩
    else if gw = 2 then some ⟨none, none, none⟩ else none

def skipStatsMap : Nat → Option StatsMap := fun _gw => none

def skipBranch : Branch := ⟨1, mkLabel 1, [⟨1, 0⟩, ⟨2, 0⟩]⟩

/-- Gameweek 3 played a free hit; gameweek 5 a wildcard. -/
def fhPicksMap : Nat → Option PicksData :=
  fun gw =>
    if gw = 3 then some ⟨none, none, some Chip.freehit⟩
    else if gw = 5 then some ⟨none, none, some Chip.wildcard⟩ else none

lemma pickBench_mem (stats : StatsMap) :
    ∀ (bench : List Pick) (used : List Nat) (bp : Pick),
      pickBench bench used stats = some bp →
      bp ∈ bench ∧ bp.element ∉ used ∧ 0 < minutesOf stats bp.element := by
  intro bench
  induction bench with
  | nil => intro used bp h; exact absurd h (by simp [pickBench])
  | cons b rest ih =>
    intro used bp h
    rw [pickBench] at h
    by_cases hb : b.element ∈ used
    · rw [if_pos hb] at h
      obtain ⟨h1, h2, h3⟩ := ih used bp h
      exact ⟨List.mem_cons_of_mem _ h1, h2, h3⟩
    · rw [if_neg hb] at h
      by_cases hm : 0 < minutesOf stats b.element
      · rw [if_pos hm] at h
        obtain rfl := Option.some.inj h
        exact ⟨List.mem_cons_self _ _, hb, hm⟩
      · rw [if_neg hm] at h
        obtain ⟨h1, h2, h3⟩ := ih used bp h
        exact ⟨List.mem_cons_of_mem _ h1, h2, h3⟩

lemma pickBench_none (stats : StatsMap) :
    ∀ (bench : List Pick) (used : List Nat),
      (∀ b ∈ bench, b.element ∈ used ∨ minutesOf stats b.element = 0) →
      pickBench bench used stats = none := by
  intro bench
  induction bench with
  | nil => intro used _; rfl
  | cons b rest ih =>
    intro used hall
    have hrest := ih used fun x hx => hall x (List.mem_cons_of_mem _ hx)
    rw [pickBench]
    by_cases hb : b.element ∈ used
    · rw [if_pos hb]; exact hrest
    · rcases hall b (List.mem_cons_self _ _) with hb' | hm
      · exact absurd hb' hb
      · rw [if_neg hb, if_neg (by omega)]; exact hrest

lemma pickBench_empty_used (stats : StatsMap) :
    ∀ bench : List Pick,
      pickBench bench [] stats
        = (bench.filter fun b => decide (0 < minutesOf stats b.element)).head? := by
  intro bench
  induction bench with
  | nil => rfl
  | cons b rest ih =>
    rw [pickBench, if_neg (List.not_mem_nil _)]
    by_cases hm : 0 < minutesOf stats b.element
    · rw [if_pos hm, List.filter_cons_of_pos (by simpa using hm)]; rfl
    · rw [if_neg hm, List.filter_cons_of_neg (by simpa using hm)]; exact ih

lemma resolveLoop_length (bench : List Pick) (stats : StatsMap) :
    ∀ (starters : List Pick) (used : List Nat),
      (resolveLoop bench stats starters used).length = starters.length := by
  intro starters
  induction starters with
  | nil => intro used; rfl
  | cons s rest ih =>
    intro used
    rw [resolveLoop]
    by_cases hm : 0 < minutesOf stats s.element
    · rw [if_pos hm]; simp [ih]
    · rw [if_neg hm]
      cases hpb : pickBench bench used stats <;> simp [ih]

lemma resolveLoop_mem (bench : List Pick) (stats : StatsMap) :
    ∀ (starters : List Pick) (used : List Nat) (e : Nat),
      e ∈ (resolveLoop bench stats starters used).map LineupEntry.element →
      e ∈ starters.map Pick.element ∨ (e ∈ bench.map Pick.element ∧ e ∉ used) := by
  intro starters
  induction starters with
  | nil => intro used e h; simp [resolveLoop] at h
  | cons s rest ih =>
    intro used e h
    rw [resolveLoop] at h
    by_cases hm : 0 < minutesOf stats s.element
    · rw [if_pos hm] at h
      simp only [List.map_cons, List.mem_cons] at h
      rcases h with rfl | h
      · left; simp
      · rcases ih used e h with h1 | h2
        · left; simp [h1]
        · right; exact h2
    · rw [if_neg hm] at h
      cases hpb : pickBench bench used stats with
      | none =>
        simp only [hpb, List.map_cons, List.mem_cons] at h
        rcases h with rfl | h
        · left; simp
        · rcases ih used e h with h1 | h2
          · left; simp [h1]
          · right; exact h2
      | some bp =>
        simp only [hpb, List.map_cons, List.mem_cons] at h
        rcases h with rfl | h
        · right
          have hsp := pickBench_mem stats bench used bp hpb
          exact ⟨List.mem_map_of_mem _ hsp.1, hsp.2.1⟩
        · rcases ih (bp.element :: used) e h with h1 | h2
          · left; simp [h1]
          · exact Or.inr ⟨h2.1, fun hc => h2.2 (List.mem_cons_of_mem _ hc)⟩

lemma resolveLoop_nodup (bench : List Pick) (stats : StatsMap) :
    ∀ (starters : List Pick) (used : List Nat),
      (starters.map Pick.element).Nodup →
      (∀ s ∈ starters, s.element ∉ bench.map Pick.element) →
      ((resolveLoop bench stats starters used).map LineupEntry.element).Nodup := by
  intro starters
  induction starters with
  | nil => intro used _ _; simp [resolveLoop]
  | cons s rest ih =>
    intro used hsn hdisj
    simp only [List.map_cons, List.nodup_cons] at hsn
    obtain ⟨hs1, hs2⟩ := hsn
    have hdisj' : ∀ x ∈ rest, x.element ∉ bench.map Pick.element :=
      fun x hx => hdisj x (List.mem_cons_of_mem _ hx)
    rw [resolveLoop]
    by_cases hm : 0 < minutesOf stats s.element
    · rw [if_pos hm]
      simp only [List.map_cons, List.nodup_cons]
      refine ⟨fun hc => ?_, ih used hs2 hdisj'⟩
      rcases resolveLoop_mem bench stats rest used _ hc with h1 | h2
      · exact hs1 h1
      · exact hdisj s (List.mem_cons_self _ _) h2.1
    · rw [if_neg hm]
      cases hpb : pickBench bench used stats with
      | none =>
        simp only [List.map_cons, List.nodup_cons]
        refine ⟨fun hc => ?_, ih used hs2 hdisj'⟩
        rcases resolveLoop_mem bench stats rest used _ hc with h1 | h2
        · exact hs1 h1
        · exact hdisj s (List.mem_cons_self _ _) h2.1
      | some bp =>
        simp only [List.map_cons, List.nodup_cons]
        obtain ⟨hbp_mem, hbp_used, _⟩ := pickBench_mem stats bench used bp hpb
        refine ⟨fun hc => ?_, ih (bp.element :: used) hs2 hdisj'⟩
        rcases resolveLoop_mem bench stats rest (bp.element :: used) _ hc with h1 | h2
        · obtain ⟨x, hx, hxe⟩ := List.mem_map.mp h1
          exact hdisj' x hx (by rw [hxe]; exact List.mem_map_of_mem _ hbp_mem)
        · exact h2.2 (List.mem_cons_self _ _)

lemma resolveLoop_no_eligible (bench : List Pick) (stats : StatsMap) :
    ∀ (starters : List Pick) (used : List Nat),
      (∀ b ∈ bench, b.element ∈ used ∨ minutesOf stats b.element = 0) →
      resolveLoop bench stats starters used
        = starters.map fun s => ⟨s.element, s.multiplier⟩ := by
  intro starters
  induction starters with
  | nil => intro used _; rfl
  | cons s rest ih =>
    intro used hall
    rw [resolveLoop]
    by_cases hm : 0 < minutesOf stats s.element
    · rw [if_pos hm, List.map_cons, ih used hall]
    · rw [if_neg hm]
      simp only [pickBench_none stats bench used hall, List.map_cons, ih used hall]

lemma resolveLoop_single_eligible (bench : List Pick) (stats : StatsMap) (b : Pick)
    (hb : bench.filter (fun bp => decide (0 < minutesOf stats bp.element)) = [b]) :
    ∀ (pre : List Pick) (s1 : Pick) (post : List Pick),
      (∀ s ∈ pre, 0 < minutesOf stats s.element) →
      minutesOf stats s1.element = 0 →
      resolveLoop bench stats (pre ++ s1 :: post) []
        = pre.map (fun s => ⟨s.element, s.multiplier⟩)
          ++ ⟨b.element, s1.multiplier⟩ :: post.map (fun s => ⟨s.element, s.multiplier⟩) := by
  intro pre
  induction pre with
  | nil =>
    intro s1 post _ h0
    simp only [List.nil_append, List.map_nil]
    rw [resolveLoop, if_neg (by omega)]
    have hpb : pickBench bench [] stats = some b := by
      rw [pickBench_empty_used, hb]; rfl
    simp only [hpb]
    congr 1
    apply resolveLoop_no_eligible
    intro bp hbp
    by_cases hm : 0 < minutesOf stats bp.element
    · left
      have hbp' : bp ∈ bench.filter fun x => decide (0 < minutesOf stats x.element) :=
        List.mem_filter.mpr ⟨hbp, by simpa using hm⟩
      rw [hb, List.mem_singleton] at hbp'
      rw [hbp']
      exact List.mem_cons_self _ _
    · right; omega
  | cons p pre ih =>
    intro s1 post hpre h0
    rw [List.cons_append, resolveLoop, if_pos (hpre p (List.mem_cons_self _ _)),
      List.map_cons, List.cons_append, ih s1 post (fun x hx => hpre x (List.mem_cons_of_mem _ hx)) h0]

lemma mem_of_mem_startersOf {picks : List Pick} {s : Pick} (h : s ∈ startersOf picks) :
    s ∈ picks ∧ 1 ≤ s.position ∧ s.position ≤ 11 := by
  have h' := (List.perm_insertionSort pickLE
    (picks.filter fun p => decide (1 ≤ p.position ∧ p.position ≤ 11))).mem_iff.mp h
  obtain ⟨hmem, hpos⟩ := List.mem_filter.mp h'
  exact ⟨hmem, of_decide_eq_true hpos⟩

lemma mem_of_mem_benchOf {picks : List Pick} {b : Pick} (h : b ∈ benchOf picks) :
    b ∈ picks ∧ 12 ≤ b.position ∧ b.position ≤ 15 := by
  have h' := (List.perm_insertionSort pickLE
    (picks.filter fun p => decide (12 ≤ p.position ∧ p.position ≤ 15))).mem_iff.mp h
  obtain ⟨hmem, hpos⟩ := List.mem_filter.mp h'
  exact ⟨hmem, of_decide_eq_true hpos⟩

lemma startersOf_elements_nodup {picks : List Pick}
    (hnd : (picks.map Pick.element).Nodup) :
    ((startersOf picks).map Pick.element).Nodup := by
  have hperm := (List.perm_insertionSort pickLE
    (picks.filter fun p => decide (1 ≤ p.position ∧ p.position ≤ 11))).map Pick.element
  refine hperm.nodup_iff.mpr ?_
  exact hnd.sublist ((List.filter_sublist picks).map Pick.element)

lemma starters_bench_disjoint {picks : List Pick}
    (hnd : (picks.map Pick.element).Nodup) :
    ∀ s ∈ startersOf picks, s.element ∉ (benchOf picks).map Pick.element := by
  intro s hs hc
  obtain ⟨q, hq, hqe⟩ := List.mem_map.mp hc
  obtain ⟨hsp, _, hs11⟩ := mem_of_mem_startersOf hs
  obtain ⟨hqp, hq12, _⟩ := mem_of_mem_benchOf hq
  have := List.inj_on_of_nodup_map hnd hqp hsp hqe
  subst this
  omega

lemma simulateAutoSubs_elements_nodup (picks : List Pick) (stats : StatsMap)
    (hnd : (picks.map Pick.element).Nodup) :
    ((simulateAutoSubs picks stats).map LineupEntry.element).Nodup :=
  resolveLoop_nodup (benchOf picks) stats (startersOf picks) []
    (startersOf_elements_nodup hnd) (starters_bench_disjoint hnd)

lemma simulateAutoSubs_elements_sub (picks : List Pick) (stats : StatsMap) :
    ∀ e ∈ (simulateAutoSubs picks stats).map LineupEntry.element,
      e ∈ picks.map Pick.element := by
  intro e he
  rcases resolveLoop_mem (benchOf picks) stats (startersOf picks) [] e he with h1 | h2
  · obtain ⟨p, hp, hpe⟩ := List.mem_map.mp h1
    exact hpe ▸ List.mem_map_of_mem _ (mem_of_mem_startersOf hp).1
  · obtain ⟨p, hp, hpe⟩ := List.mem_map.mp h2.1
    exact hpe ▸ List.mem_map_of_mem _ (mem_of_mem_benchOf hp).1

lemma branchLoop_cons (frozen normalized : List Pick) (stats : Nat → Option StatsMap)
    (freezeGW gw : Nat) (rest : List Nat) (total : Int) :
    branchLoop frozen normalized stats freezeGW (gw :: rest) total
      = ⟨gw, total + deltaAt frozen normalized stats freezeGW gw⟩
        :: branchLoop frozen normalized stats freezeGW rest
            (total + deltaAt frozen normalized stats freezeGW gw) := by
  rw [branchLoop, deltaAt]
  cases h : stats gw with
  | none => simp
  | some d => rfl

lemma branchLoop_getElem (frozen normalized : List Pick) (stats : Nat → Option StatsMap)
    (freezeGW : Nat) :
    ∀ (gws : List Nat) (total : Int) (i : Nat) (gwi : Nat), gws[i]? = some gwi →
      (branchLoop frozen normalized stats freezeGW gws total)[i]?
        = some ⟨gwi, total
            + ((gws.take (i + 1)).map (deltaAt frozen normalized stats freezeGW)).sum⟩ := by
  intro gws
  induction gws with
  | nil => intro total i gwi h; simp at h
  | cons gw rest ih =>
    intro total i gwi h
    rw [branchLoop_cons]
    cases i with
    | zero =>
      simp only [List.getElem?_cons_zero, Option.some.injEq] at h
      subst h
      simp
    | succ j =>
      simp only [List.getElem?_cons_succ] at h
      rw [List.getElem?_cons_succ, ih _ j gwi h]
      simp [add_assoc]

lemma take_map_sum_succ (f : Nat → Int) {gws : List Nat} {i : Nat} {gwi : Nat}
    (h : gws[i]? = some gwi) :
    ((gws.take (i + 1)).map f).sum = ((gws.take i).map f).sum + f gwi := by
  rw [List.take_succ, h]
  simp

lemma branchFor_eq_some {picksMap : Nat → Option PicksData} {stats : Nat → Option StatsMap}
    {currentGW f : Nat} {b : Branch}
    (h : branchFor picksMap stats currentGW f = some b) :
    ∃ pd frozen, picksMap f = some pd ∧ pd.picks = some frozen ∧
      b = ⟨f, mkLabel f,
        branchLoop frozen (normalizedPicks frozen) stats f
          (List.range' f (currentGW + 1 - f)) (basePointsFor picksMap f)⟩ := by
  rw [branchFor] at h
  split at h
  next hpm => exact absurd h (by simp)
  next pd hpm =>
    split at h
    next hpk => exact absurd h (by simp)
    next frozen hpk => exact ⟨pd, frozen, hpm, hpk, (Option.some.inj h).symm⟩

lemma branchFor_none {picksMap : Nat → Option PicksData} (stats : Nat → Option StatsMap)
    (currentGW : Nat) {f : Nat} (hf : (picksMap f).bind PicksData.picks = none) :
    branchFor picksMap stats currentGW f = none := by
  rw [branchFor]
  split
  · rfl
  next pd hpm =>
    rw [hpm] at hf
    have hpk : pd.picks = none := by simpa using hf
    simp only [hpk]

lemma range'_getElem? {s n i : Nat} (h : i < n) :
    (List.range' s n)[i]? = some (s + i) := by
  rw [List.getElem?_eq_getElem (by simpa using h)]
  simp [List.getElem_range']

/-- The single entry of a branch's data at replay gameweek `gw`: it exists,
and its total is the previous total (the base points at `gw = f`) plus the
gameweek delta. -/
lemma branch_data_entry {picksMap : Nat → Option PicksData} {stats : Nat → Option StatsMap}
    {currentGW f : Nat} {b : Branch}
    (hb : branchFor picksMap stats currentGW f = some b)
    {gw : Nat} (hgw1 : f ≤ gw) (hgw2 : gw ≤ currentGW) :
    ∃ pd frozen, picksMap f = some pd ∧ pd.picks = some frozen ∧
    ∃ t, b.data[gw - f]? = some ⟨gw, t⟩
      ∧ (gw = f →
          t = basePointsFor picksMap f
              + deltaAt frozen (normalizedPicks frozen) stats f gw)
      ∧ (f < gw → ∃ prev, b.data[gw - f - 1]? = some ⟨gw - 1, prev⟩
          ∧ t = prev + deltaAt frozen (normalizedPicks frozen) stats f gw) := by
  obtain ⟨pd, frozen, hpm, hpk, rfl⟩ := branchFor_eq_some hb
  refine ⟨pd, frozen, hpm, hpk, ?_⟩
  have hgwi : (List.range' f (currentGW + 1 - f))[gw - f]? = some gw := by
    rw [range'_getElem? (by omega)]
    congr 1
    omega
  have hloop := branchLoop_getElem frozen (normalizedPicks frozen) stats f
    (List.range' f (currentGW + 1 - f)) (basePointsFor picksMap f) (gw - f) gw hgwi
  refine ⟨_, hloop, fun heq => ?_, fun hlt => ?_⟩
  · subst heq
    have hn : currentGW + 1 - gw = (currentGW - gw) + 1 := by omega
    rw [Nat.sub_self, hn, List.range'_succ]
    simp
  · have hgwi' : (List.range' f (currentGW + 1 - f))[gw - f - 1]? = some (gw - 1) := by
      rw [range'_getElem? (by omega)]
      congr 1
      omega
    have hloop' := branchLoop_getElem frozen (normalizedPicks frozen) stats f
      (List.range' f (currentGW + 1 - f)) (basePointsFor picksMap f) (gw - f - 1) (gw - 1) hgwi'
    refine ⟨_, hloop', ?_⟩
    have hstep := take_map_sum_succ (deltaAt frozen (normalizedPicks frozen) stats f) hgwi
    have hidx : gw - f - 1 + 1 = gw - f := by omega
    rw [hidx, hstep]
    ring

/-- C1: `simulateAutoSubs` processes the starters (slots 1-11) in ascending
slot order and, for each, keeps a playing starter at its multiplier,
otherwise substitutes the first unused bench player (slots 12-15, ascending)
with nonzero minutes at the starter's multiplier, keeping the starter when no
such bench player exists; absent stat records are treated as zero minutes and
zero points and never raise an error (both functions are total). This is
stated as equality with `lineupResolverSpec`, written from the design
document's words. -/
theorem lineup_resolver_matches_spec (picks : List Pick) (stats : StatsMap) :
    simulateAutoSubs picks stats = lineupResolverSpec picks stats := by
  unfold simulateAutoSubs lineupResolverSpec
  rw [foldl_resolveSpecStep (benchOf picks) stats (startersOf picks) [] ∅ [] (by simp)]
  simp

/-- C9: the used-set is shared across the whole scan, so each bench player is
used as a substitute at most once (its id appears at most once in the
lineup); and with two zero-minute starters and exactly one bench player with
minutes, exactly one substitution happens — for the starter that comes first
in slot order — and the second zero-minute starter is retained. -/
theorem bench_player_used_at_most_once :
    (∀ (picks : List Pick) (stats : StatsMap),
        (picks.map Pick.element).Nodup →
        ∀ e ∈ (benchOf picks).map Pick.element,
          ((simulateAutoSubs picks stats).map LineupEntry.element).count e ≤ 1)
    ∧ (∀ (picks : List Pick) (stats : StatsMap) (b : Pick)
          (pre : List Pick) (s1 : Pick) (post : List Pick),
        (benchOf picks).filter (fun bp => decide (0 < minutesOf stats bp.element)) = [b] →
        startersOf picks = pre ++ s1 :: post →
        (∀ s ∈ pre, 0 < minutesOf stats s.element) →
        minutesOf stats s1.element = 0 →
        ((startersOf picks).filter fun s => decide (minutesOf stats s.element = 0)).length = 2 →
        simulateAutoSubs picks stats
          = pre.map (fun s => ⟨s.element, s.multiplier⟩)
            ++ ⟨b.element, s1.multiplier⟩ :: post.map (fun s => ⟨s.element, s.multiplier⟩)) := by
  constructor
  · intro picks stats hnd e _
    exact List.nodup_iff_count_le_one.mp (simulateAutoSubs_elements_nodup picks stats hnd) e
  · intro picks stats b pre s1 post hb hsplit hpre h0 _
    unfold simulateAutoSubs
    rw [hsplit]
    exact resolveLoop_single_eligible (benchOf picks) stats b hb pre s1 post hpre h0

theorem bench_player_used_at_most_once_witness :
    ((simulateAutoSubs usedSetPicks usedSetStats).map LineupEntry.element).count 3 ≤ 1
    ∧ simulateAutoSubs usedSetPicks usedSetStats
        = List.map (fun s : Pick => (⟨s.element, s.multiplier⟩ : LineupEntry)) []
          ++ ⟨3, 2⟩ :: List.map (fun s : Pick => (⟨s.element, s.multiplier⟩ : LineupEntry))
              [(⟨2, 2, 1⟩ : Pick)] :=
  ⟨bench_player_used_at_most_once.1 usedSetPicks usedSetStats (by decide) 3 (by decide),
   bench_player_used_at_most_once.2 usedSetPicks usedSetStats ⟨3, 12, 1⟩ [] ⟨1, 1, 2⟩
     [⟨2, 2, 1⟩] (by decide) (by decide) (by decide) (by decide) (by decide)⟩

/-- C10: on a pick list with pairwise-distinct player ids the resolver
returns exactly one entry per starter pick (so 11 for a full squad whose
positions are 1..15), every returned id occurs among the input picks, and no
id appears twice in the output. -/
theorem lineup_one_entry_per_starter (picks : List Pick) (stats : StatsMap)
    (hnd : (picks.map Pick.element).Nodup) :
    (simulateAutoSubs picks stats).length
        = (picks.filter fun p => decide (1 ≤ p.position ∧ p.position ≤ 11)).length
      ∧ (∀ e ∈ (simulateAutoSubs picks stats).map LineupEntry.element,
          e ∈ picks.map Pick.element)
      ∧ ((simulateAutoSubs picks stats).map LineupEntry.element).Nodup
      ∧ ((picks.map Pick.position).Perm (List.range' 1 15) →
          (simulateAutoSubs picks stats).length = 11) := by
  have hlen : (simulateAutoSubs picks stats).length
      = (picks.filter fun p => decide (1 ≤ p.position ∧ p.position ≤ 11)).length := by
    unfold simulateAutoSubs
    rw [resolveLoop_length]
    exact (List.perm_insertionSort pickLE _).length_eq
  refine ⟨hlen, simulateAutoSubs_elements_sub picks stats,
    simulateAutoSubs_elements_nodup picks stats hnd, fun hperm => ?_⟩
  have hc := hperm.countP_eq fun pos => decide (1 ≤ pos ∧ pos ≤ 11)
  rw [List.countP_map] at hc
  have h15 : (List.range' 1 15).countP (fun pos => decide (1 ≤ pos ∧ pos ≤ 11)) = 11 := by
    decide
  rw [hlen, ← List.countP_eq_length_filter]
  calc picks.countP (fun p => decide (1 ≤ p.position ∧ p.position ≤ 11))
      = picks.countP ((fun pos => decide (1 ≤ pos ∧ pos ≤ 11)) ∘ Pick.position) := rfl
    _ = 11 := by rw [hc, h15]

/-- C2 counterexample: in the what-if branch replay the bench-boost chip is
active at the freeze gameweek, yet the resolver is applied, so the emitted
score (12) differs from the verbatim all-15 score (16) the claim requires. -/
theorem bench_boost_not_bypassed_in_branches :
    bbPicksMap 1 = some bbPicksData
    ∧ bbPicksData.activeChip = some Chip.bboost
    ∧ computeBranches bbPicksMap bbStatsMap 1 [1] = [⟨1, mkLabel 1, [⟨1, 12⟩]⟩]
    ∧ basePointsFor bbPicksMap 1
        + gwScore (bbFrozen.map fun p => ⟨p.element, p.multiplier⟩) bbStats = 16
    ∧ (12 : Int) ≠ 16 :=
  ⟨rfl, rfl, by decide, by decide, by decide⟩

/-- C2 amended: the bench-boost bypass exists only in the player-contributions
dispatch: with `active_chip = 'bboost'` the effective lineup is the input
picks verbatim at their stored multipliers; otherwise the resolver runs. The
what-if branch simulator never consults the chip for scoring. -/
theorem bench_boost_bypass_in_contributions (picks : List Pick) (gwData : StatsMap) :
    effectivePicks picks (some Chip.bboost) gwData
        = picks.map (fun p => ⟨p.element, p.multiplier⟩)
    ∧ effectivePicks picks none gwData = simulateAutoSubs picks gwData := by
  constructor
  · rw [effectivePicks, if_pos rfl]
  · rw [effectivePicks, if_neg (by simp)]

/-- C3: normalisation maps every pick elementwise, keeping `element` and
`position`: bench slots (12-15) go to multiplier 0, a starter with
multiplier 3 goes to 2, every other starter keeps its multiplier. -/
theorem normalized_picks_per_pick (picks : List Pick)
    (hpos : ∀ p ∈ picks, 1 ≤ p.position ∧ p.position ≤ 15) :
    (normalizedPicks picks).length = picks.length
    ∧ ∀ (i : Nat) (p : Pick), picks[i]? = some p →
        (normalizedPicks picks)[i]? = some
          ⟨p.element, p.position,
            if 12 ≤ p.position ∧ p.position ≤ 15 then 0
            else if p.multiplier = 3 then 2 else p.multiplier⟩ := by
  refine ⟨by simp [normalizedPicks], fun i p hp => ?_⟩
  have hmem : p ∈ picks := List.getElem?_mem hp
  obtain ⟨h1, h15⟩ := hpos p hmem
  rw [normalizedPicks, List.getElem?_map, hp]
  obtain ⟨pe, pp, pm⟩ := p
  by_cases h12 : 12 ≤ pp
  · simp only [Pick.position] at h15
    simp [h12, h15]
  · simp [h12]

theorem normalized_picks_per_pick_witness :
    (normalizedPicks tcNormPicks).length = tcNormPicks.length
    ∧ (normalizedPicks tcNormPicks)[0]? = some ⟨7, 1, 2⟩
    ∧ (normalizedPicks tcNormPicks)[2]? = some ⟨9, 13, 0⟩ :=
  have h := normalized_picks_per_pick tcNormPicks (by decide)
  ⟨h.1, (h.2 0 ⟨7, 1, 3⟩ (by decide)).trans (by decide),
    (h.2 2 ⟨9, 13, 1⟩ (by decide)).trans (by decide)⟩

/-- C4: within a branch frozen at `f`, the entry for gameweek `gw` (with
stat data present) scores with the original frozen picks when `gw = f` and
with the normalised picks when `gw > f`; and a triple-captain starter
(multiplier 3) appears with multiplier 2 in the normalised picks, so its
slot contributes factor 3 at the freeze gameweek and factor 2 afterwards. -/
theorem branch_frozen_then_normalized
    (picksMap : Nat → Option PicksData) (stats : Nat → Option StatsMap)
    (currentGW f gw : Nat) (pd : PicksData) (frozen : List Pick) (b : Branch) (d : StatsMap)
    (hpm : picksMap f = some pd) (hpk : pd.picks = some frozen)
    (hb : branchFor picksMap stats currentGW f = some b)
    (hgw1 : f ≤ gw) (hgw2 : gw ≤ currentGW) (hd : stats gw = some d) :
    ((b.data[gw - f]?).map GWPoint.gw = some gw
      ∧ (gw = f → (b.data[gw - f]?).map GWPoint.points
            = some (basePointsFor picksMap f + gwScore (simulateAutoSubs frozen d) d))
      ∧ (f < gw → (b.data[gw - f - 1]?).map GWPoint.gw = some (gw - 1)
          ∧ (b.data[gw - f]?).map GWPoint.points
              = (b.data[gw - f - 1]?).map fun q =>
                  q.points + gwScore (simulateAutoSubs (normalizedPicks frozen) d) d))
    ∧ (∀ p ∈ frozen, p.position ≤ 11 → p.multiplier = 3 →
        (⟨p.element, p.position, 2⟩ : Pick) ∈ normalizedPicks frozen) := by
  obtain ⟨pd', frozen', hpm', hpk', t, ht, heqf, hltf⟩ := branch_data_entry hb hgw1 hgw2
  rw [hpm] at hpm'
  obtain rfl := Option.some.inj hpm'
  rw [hpk] at hpk'
  obtain rfl := Option.some.inj hpk'
  constructor
  · refine ⟨by rw [ht]; rfl, fun heq => ?_, fun hlt => ?_⟩
    · subst heq
      rw [ht]
      have h1 := heqf rfl
      show some t = _
      rw [h1, deltaAt, hd, if_pos rfl]
    · obtain ⟨prev, hprev, hteq⟩ := hltf hlt
      refine ⟨by rw [hprev]; rfl, ?_⟩
      rw [ht, hprev]
      show some t = some (prev + _)
      rw [hteq, deltaAt, hd, if_neg (by omega)]
  · intro p hp h11 h3
    refine List.mem_map.mpr ⟨p, hp, ?_⟩
    obtain ⟨pe, pp, pm⟩ := p
    simp only [Pick.position] at h11
    simp only [Pick.multiplier] at h3
    simp [show ¬12 ≤ pp by omega, h3]

theorem branch_frozen_then_normalized_witness :
    (tcBranch.data[2 - 1]?).map GWPoint.points
        = (tcBranch.data[2 - 1 - 1]?).map
            (fun q => q.points + gwScore (simulateAutoSubs (normalizedPicks tcFrozen) tcStats) tcStats)
    ∧ (⟨1, 1, 2⟩ : Pick) ∈ normalizedPicks tcFrozen :=
  have h := branch_frozen_then_normalized tcPicksMap tcStatsMap 2 1 2 tcPicksData
    tcFrozen tcBranch tcStats rfl rfl (by decide) (by decide) (by decide) rfl
  ⟨(h.1.2.2 (by decide)).2, h.2 ⟨1, 1, 3⟩ (by decide) (by decide) (by decide)⟩

/-- C5: for the branch frozen at `f`, the running total is seeded with
`picksMap[f-1].entry_history.total_points` when `f > 1` and that record is
present, and with 0 when `f = 1`; the first emitted pair is the base points
plus the freeze gameweek's own lineup score. -/
theorem branch_base_points
    (picksMap : Nat → Option PicksData) (stats : Nat → Option StatsMap)
    (currentGW f : Nat) (pd : PicksData) (frozen : List Pick) (d : StatsMap) (b : Branch)
    (hpm : picksMap f = some pd) (hpk : pd.picks = some frozen)
    (hb : branchFor picksMap stats currentGW f = some b)
    (hcur : f ≤ currentGW) (hd : stats f = some d) :
    b.data.head? = some ⟨f, basePointsFor picksMap f + gwScore (simulateAutoSubs frozen d) d⟩
    ∧ (f = 1 → basePointsFor picksMap f = 0)
    ∧ (∀ pd2 eh, 1 < f → picksMap (f - 1) = some pd2 → pd2.entryHistory = some eh →
        basePointsFor picksMap f = eh.totalPoints) := by
  obtain ⟨pd', frozen', hpm', hpk', rfl⟩ := branchFor_eq_some hb
  rw [hpm] at hpm'
  obtain rfl := Option.some.inj hpm'
  rw [hpk] at hpk'
  obtain rfl := Option.some.inj hpk'
  refine ⟨?_, ?_, ?_⟩
  · have hn : currentGW + 1 - f = (currentGW - f) + 1 := by omega
    show (branchLoop _ _ _ _ _ _).head? = _
    rw [hn, List.range'_succ, branchLoop_cons, List.head?_cons]
    rw [deltaAt, hd, if_pos rfl]
  · intro h1
    rw [basePointsFor, if_neg (by omega)]
  · intro pd2 eh hf hpd2 heh
    rw [basePointsFor, if_pos hf]
    simp [hpd2, heh]

theorem branch_base_points_witness :
    baseBranch.data.head?
        = some ⟨2, basePointsFor basePicksMap 2
            + gwScore (simulateAutoSubs baseFrozen baseStats) baseStats⟩
    ∧ basePointsFor basePicksMap 2 = (30 : Int) :=
  have h := branch_base_points basePicksMap baseStatsMap 2 2 basePd2 baseFrozen baseStats
    baseBranch rfl rfl (by decide) (by decide) rfl
  ⟨h.1, h.2.2 basePd1 ⟨30⟩ (by decide) rfl rfl⟩

/-- C6: the freeze-point sequence is strictly increasing (hence
duplicate-free), contains only gameweek 1 and transfer gameweeks, and never
contains a gameweek whose active chip is the free hit. -/
theorem freeze_points_invariant
    (events : List Nat) (picksMap : Nat → Option PicksData) (currentGW : Nat) :
    List.Sorted (· < ·) (mkAllFreezeGWs (mkTransferGWs events) picksMap currentGW)
    ∧ (mkAllFreezeGWs (mkTransferGWs events) picksMap currentGW).Nodup
    ∧ (∀ gw ∈ mkAllFreezeGWs (mkTransferGWs events) picksMap currentGW, gw = 1 ∨ gw ∈ events)
    ∧ (∀ gw ∈ mkAllFreezeGWs (mkTransferGWs events) picksMap currentGW,
        ∀ pd, 1 ≤ gw → gw ≤ currentGW → picksMap gw = some pd →
          pd.activeChip ≠ some Chip.freehit) := by
  have htn : (mkTransferGWs events).Nodup :=
    (List.perm_insertionSort _ _).nodup_iff.mpr (List.nodup_dedup events)
  have hnodup0 :
      ((1 :: (mkTransferGWs events).filter fun gw => decide (gw ≠ 1)).filter
        fun gw => decide (gw ∉ freeHitGWs picksMap currentGW)).Nodup := by
    apply List.Nodup.filter
    refine List.nodup_cons.mpr ⟨fun hmem => ?_, htn.filter _⟩
    have := List.of_mem_filter hmem
    simp at this
  have hperm : (mkAllFreezeGWs (mkTransferGWs events) picksMap currentGW).Perm
      ((1 :: (mkTransferGWs events).filter fun gw => decide (gw ≠ 1)).filter
        fun gw => decide (gw ∉ freeHitGWs picksMap currentGW)) :=
    List.perm_insertionSort _ _
  have hnodupL : (mkAllFreezeGWs (mkTransferGWs events) picksMap currentGW).Nodup :=
    hperm.nodup_iff.mpr hnodup0
  have hsle : List.Sorted (· ≤ ·) (mkAllFreezeGWs (mkTransferGWs events) picksMap currentGW) :=
    List.sorted_insertionSort _ _
  refine ⟨hsle.lt_of_le hnodupL, hnodupL, ?_, ?_⟩
  · intro gw hgw
    have h0 := hperm.mem_iff.mp hgw
    have h1 := List.mem_of_mem_filter h0
    rcases List.mem_cons.mp h1 with h | h
    · exact Or.inl h
    · right
      have h2 := List.mem_of_mem_filter h
      have h3 := (List.perm_insertionSort _ events.dedup).mem_iff.mp h2
      exact List.mem_dedup.mp h3
  · intro gw hgw pd h1 h2 hpd hchip
    have h0 := hperm.mem_iff.mp hgw
    have hdec := List.of_mem_filter h0
    have hnotfh : gw ∉ freeHitGWs picksMap currentGW := by simpa using hdec
    apply hnotfh
    refine List.mem_filter.mpr ⟨?_, ?_⟩
    · exact List.mem_range'_1.mpr ⟨h1, by omega⟩
    · simp [hpd, hchip]

theorem freeze_points_invariant_witness :
    List.Sorted (· < ·) (mkAllFreezeGWs (mkTransferGWs [5, 3, 3]) fhPicksMap 6)
    ∧ (mkAllFreezeGWs (mkTransferGWs [5, 3, 3]) fhPicksMap 6).Nodup
    ∧ ((5 : Nat) = 1 ∨ (5 : Nat) ∈ [5, 3, 3])
    ∧ (⟨none, none, some Chip.wildcard⟩ : PicksData).activeChip ≠ some Chip.freehit :=
  have h := freeze_points_invariant [5, 3, 3] fhPicksMap 6
  ⟨h.1, h.2.1, h.2.2.1 5 (by decide),
    h.2.2.2 5 (by decide) ⟨none, none, some Chip.wildcard⟩ (by decide) (by decide) rfl⟩

/-- C7: a replayed gameweek with no stat data still emits its pair, whose
total carries the previous entry's total forward unchanged (the base points
when the gameweek is the freeze gameweek itself); everything stays total, so
no error is raised. -/
theorem missing_stats_carry_forward
    (picksMap : Nat → Option PicksData) (stats : Nat → Option StatsMap)
    (currentGW f gw : Nat) (b : Branch)
    (hb : branchFor picksMap stats currentGW f = some b)
    (hgw1 : f ≤ gw) (hgw2 : gw ≤ currentGW) (hstats : stats gw = none) :
    (b.data[gw - f]?).map GWPoint.gw = some gw
    ∧ (gw = f → (b.data[gw - f]?).map GWPoint.points = some (basePointsFor picksMap f))
    ∧ (f < gw → b.data[gw - f - 1]? = (b.data[gw - f]?).map fun q => ⟨gw - 1, q.points⟩) := by
  obtain ⟨pd, frozen, hpm, hpk, t, ht, heqf, hltf⟩ := branch_data_entry hb hgw1 hgw2
  have hdelta : deltaAt frozen (normalizedPicks frozen) stats f gw = 0 := by
    rw [deltaAt, hstats]
  refine ⟨by rw [ht]; rfl, fun heq => ?_, fun hlt => ?_⟩
  · rw [ht]
    show some t = _
    rw [heqf heq, hdelta, add_zero]
  · obtain ⟨prev, hprev, hteq⟩ := hltf hlt
    rw [ht, hprev]
    show some (⟨gw - 1, prev⟩ : GWPoint) = some (⟨gw - 1, t⟩ : GWPoint)
    rw [hteq, hdelta, add_zero]

theorem missing_stats_carry_forward_witness :
    (cfBranch.data[2 - 1]?).map GWPoint.gw = some 2
    ∧ cfBranch.data[2 - 1 - 1]? = (cfBranch.data[2 - 1]?).map (fun q => ⟨2 - 1, q.points⟩) :=
  have h := missing_stats_carry_forward cfPicksMap cfStatsMap 2 1 2 cfBranch rfl
    (by decide) (by decide) rfl
  ⟨h.1, h.2.2 (by decide)⟩

/-- C8: a freeze point whose frozen picks payload is missing or lacks a picks
list yields no branch, and the other freeze points' branches are exactly
those computed without it; nothing fails. -/
theorem unavailable_freeze_point_skipped
    (picksMap : Nat → Option PicksData) (stats : Nat → Option StatsMap)
    (currentGW f : Nat) (freezeGWs : List Nat)
    (hf : (picksMap f).bind PicksData.picks = none) :
    computeBranches picksMap stats currentGW freezeGWs
        = computeBranches picksMap stats currentGW (freezeGWs.filter fun g => decide (g ≠ f))
    ∧ ∀ b ∈ computeBranches picksMap stats currentGW freezeGWs, b.freezeGW ≠ f := by
  have hnone := branchFor_none stats currentGW hf
  constructor
  · induction freezeGWs with
    | nil => rfl
    | cons g rest ih =>
      by_cases hg : g = f
      · subst hg
        have h2 : (g :: rest).filter (fun x => decide (x ≠ g))
            = rest.filter fun x => decide (x ≠ g) := by
          rw [List.filter_cons_of_neg]
          simp
        rw [h2, computeBranches, List.filterMap_cons_none hnone]
        exact ih
      · have h2 : (g :: rest).filter (fun x => decide (x ≠ f))
            = g :: rest.filter fun x => decide (x ≠ f) := by
          rw [List.filter_cons_of_pos]
          simpa using hg
        rw [h2]
        cases hbg : branchFor picksMap stats currentGW g with
        | none =>
          rw [computeBranches, List.filterMap_cons_none hbg, computeBranches,
            List.filterMap_cons_none hbg]
          exact ih
        | some b =>
          rw [computeBranches, List.filterMap_cons_some hbg, computeBranches,
            List.filterMap_cons_some hbg]
          exact congrArg (List.cons b) ih
  · intro b hbmem hbf
    obtain ⟨g, hg, hbg⟩ := List.mem_filterMap.mp hbmem
    have hfg : b.freezeGW = g := by
      obtain ⟨pd, frozen, _, _, rfl⟩ := branchFor_eq_some hbg
      rfl
    rw [hfg] at hbf
    rw [hbf, hnone] at hbg
    exact Option.noConfusion hbg

theorem unavailable_freeze_point_skipped_witness :
    computeBranches skipPicksMap skipStatsMap 2 [1, 2]
        = computeBranches skipPicksMap skipStatsMap 2 ([1, 2].filter fun g => decide (g ≠ 2))
    ∧ skipBranch.freezeGW ≠ 2 :=
  have h := unavailable_freeze_point_skipped skipPicksMap skipStatsMap 2 2 [1, 2] rfl
  ⟨h.1, h.2 skipBranch (by decide)⟩

theorem lineup_one_entry_per_starter_witness :
    (simulateAutoSubs fullSquadPicks fullSquadStats).length
        = (fullSquadPicks.filter fun p => decide (1 ≤ p.position ∧ p.position ≤ 11)).length
      ∧ ((simulateAutoSubs fullSquadPicks fullSquadStats).map LineupEntry.element).Nodup
      ∧ (simulateAutoSubs fullSquadPicks fullSquadStats).length = 11 :=
  have h := lineup_one_entry_per_starter fullSquadPicks fullSquadStats (by decide)
  ⟨h.1, h.2.2.1, h.2.2.2 (by decide)⟩

end FplSim
